import Mathlib

/-!
Shallow embedding of the two scraping scripts of this repository
(`scrape_nba_salaries.py`, a Python 2 script, and `scrape_nba_statistics.py`,
a Python 3 script).  Network fetching and regex scanning over raw HTML are
modelled by taking the list of regex matches (`re.findall` output) as the
input of each embedded function; everything downstream of the matches is
translated directly from the source.  Python `dict`s are modelled as
insertion-ordered association lists with overwrite-on-duplicate-key
(`pyDict`); exceptions are modelled with `Except String`; Python numbers are
modelled with `Int`/`Rat` (decimal literals exactly, as rationals).
-/

namespace NBA

/-- The double-quote character (written via its code point to keep string
handling uniform). -/
def quoteChar : Char := Char.ofNat 34

/-- The apostrophe / single-quote character. -/
def apostChar : Char := Char.ofNat 39

/-- Value of a list of decimal digit characters, most significant first. -/
def natOfDigits (cs : List Char) : ℕ :=
  cs.foldl (fun a c => 10 * a + (c.toNat - 48)) 0

/-- Python `s.split(sep)` for a single-character separator: splits on every
occurrence, keeping empty fragments (`"".split(",") == [""]`). -/
def splitOnChar (sep : Char) : List Char → List (List Char)
  | [] => [[]]
  | c :: cs =>
    if c = sep then [] :: splitOnChar sep cs
    else
      match splitOnChar sep cs with
      | [] => [[c]]
      | t :: ts => (c :: t) :: ts

/-- One step of building a Python dict: `d[k] = v`.  A key already present
keeps its position and gets the new value; a new key is appended
(insertion-order semantics). -/
def pyDictInsert {α β : Type} [DecidableEq α] (d : List (α × β)) (k : α) (v : β) :
    List (α × β) :=
  if d.any (fun p => p.1 = k) then d.map (fun p => if p.1 = k then (k, v) else p)
  else d ++ [(k, v)]

/-- Python `dict(pairs)`: fold the pairs into an insertion-ordered dict. -/
def pyDict {α β : Type} [DecidableEq α] (l : List (α × β)) : List (α × β) :=
  l.foldl (fun d p => pyDictInsert d p.1 p.2) []

/-- Strip leading and trailing whitespace, as `int()` does. -/
def pyTrim (cs : List Char) : List Char :=
  ((cs.dropWhile Char.isWhitespace).reverse.dropWhile Char.isWhitespace).reverse

/-- Python `int(s)`: optional surrounding whitespace, optional sign, then a
nonempty run of decimal digits; anything else raises `ValueError` (`none`). -/
def pyInt? (cs : List Char) : Option ℤ :=
  match pyTrim cs with
  | '-' :: rest =>
    if !rest.isEmpty && rest.all Char.isDigit then some (-(natOfDigits rest : ℤ)) else none
  | '+' :: rest =>
    if !rest.isEmpty && rest.all Char.isDigit then some ((natOfDigits rest : ℤ)) else none
  | rest =>
    if !rest.isEmpty && rest.all Char.isDigit then some ((natOfDigits rest : ℤ)) else none

/-- Python `float(s)` restricted to the unsigned decimal numerals this
pipeline produces (`"82"`, `"35.1"`, `".5"`, `"5."`); anything else raises
`ValueError` (`none`). -/
def pyFloat? (cs : List Char) : Option ℚ :=
  match splitOnChar '.' cs with
  | [a] => if !a.isEmpty && a.all Char.isDigit then some ((natOfDigits a : ℚ)) else none
  | [a, b] =>
    if (!a.isEmpty || !b.isEmpty) && a.all Char.isDigit && b.all Char.isDigit then
      some ((natOfDigits a : ℚ) + (natOfDigits b : ℚ) / ((10 : ℚ) ^ b.length))
    else none
  | _ => none

/-- Insert `x` into `l` before the first element not strictly below it
(`lt y x = false`).  Keeps ties in their original order. -/
def pyInsert {α : Type} (lt : α → α → Bool) (x : α) : List α → List α
  | [] => [x]
  | y :: ys => if lt y x then y :: pyInsert lt x ys else x :: y :: ys

/-- Python `sorted` / `list.sort`: a stable ascending sort.  Python uses
Timsort, but a stable sort under a total preorder has a unique output, so
stable insertion sort is an exact model. -/
def pySort {α : Type} (lt : α → α → Bool) : List α → List α
  | [] => []
  | x :: xs => pyInsert lt x (pySort lt xs)

/-- Python 2 `round(x, 2)`: round `x*100` half-to-even, divide back. -/
def round_half_even (x : ℚ) : ℤ :=
  let f := Int.floor x
  if x - f < 1 / 2 then f
  else if 1 / 2 < x - f then f + 1
  else if f % 2 = 0 then f else f + 1

/-- Model of `round(x, 2)` as used at line 60 of `scrape_nba_salaries.py`. -/
def pyRound2 (x : ℚ) : ℚ := ((round_half_even (x * 100) : ℤ) : ℚ) / 100

/-! ## scrape_nba_salaries.py -/

/-- A normalized salary cell: either the `'Not Reported'` sentinel the script
stores for an `&nbsp;` cell, or the parsed integer number of dollars. -/
inductive Salary where
  | notReported : Salary
  | num : ℤ → Salary
deriving DecidableEq

/-- Model of `re.sub("([,$])", "", s)`: delete every comma and dollar sign. -/
def stripMoney (s : String) : List Char :=
  s.toList.filter (fun c => !(c = ',' || c = '$'))

/-- Normalization of one salary cell (lines 46-49 of
`scrape_nba_salaries.py`): the `&nbsp;` placeholder becomes the sentinel,
anything else goes through `int(re.sub("([,$])","",...))`; `none` models the
`ValueError` raised by `int` on a malformed cell. -/
def normSalaryStr (s : String) : Option Salary :=
  if s = "&nbsp;" then some Salary.notReported
  else (pyInt? (stripMoney s)).map Salary.num

/-- The `for key in player_salaries.keys()` normalization loop: rewrite each
value in dict order; a `ValueError` aborts the run. -/
def normalize (d : List (String × String)) : Except String (List (String × Salary)) :=
  d.mapM (fun p =>
    match normSalaryStr p.2 with
    | some v => Except.ok (p.1, v)
    | none => Except.error "ValueError")

/-- The `salaries` list: the integer salaries in dict order (the loop appends
exactly the non-sentinel values). -/
def disclosed (d : List (String × Salary)) : List ℤ :=
  d.filterMap (fun p =>
    match p.2 with
    | Salary.num n => some n
    | Salary.notReported => none)

/-- Model of `find_key` (lines 22-24): `[k for k, v in dic.items() if v == val][0]`;
`none` models the `IndexError` on an empty comprehension. -/
def find_key (d : List (String × Salary)) (v : Salary) : Option String :=
  ((d.filter (fun p => p.2 = v)).map (fun p => p.1)).head?

/-- The body of `calculate_statistic`'s per-team loop (lines 33-54, after the
regex): build the player→salary dict, normalize it, take
`sorted(salaries)[-1]` and `find_key` for the highest-paid player, and
`sum(salaries)/len(salaries)` (Python 2 integer division) for the average.
Input: the `re.findall` matches, in document order. -/
def teamStep (ps : List (String × String)) : Except String ((String × ℤ) × ℚ) := do
  let player_salaries ← normalize (pyDict ps)
  let salaries := disclosed player_salaries
  match (pySort (fun a b => decide (a < b)) salaries).getLast? with
  | none => Except.error "IndexError"
  | some mx =>
    match find_key player_salaries (Salary.num mx) with
    | none => Except.error "IndexError"
    | some name =>
      if salaries.length = 0 then Except.error "ZeroDivisionError"
      else Except.ok ((name, mx), ((salaries.sum.fdiv (salaries.length : ℤ) : ℤ) : ℚ))

/-- The per-team loop of `calculate_statistic`: one `teamStep` per roster, in
order; the first exception aborts the run. -/
def teamStats (rosters : List (String × List (String × String))) :
    Except String (List ((String × ℤ) × ℚ)) :=
  rosters.mapM (fun tp => teamStep tp.2)

/-- Python `d[k]`: `KeyError` when absent. -/
def lookupOrKeyError {α β : Type} [DecidableEq α] (d : List (α × β)) (k : α) :
    Except String β :=
  match d.find? (fun p => p.1 = k) with
  | some p => Except.ok p.2
  | none => Except.error "KeyError"

/-- Model of `calculate_statistic` (lines 28-66): run the per-team loop, then build the
two printed reports.  Report 1: `dict(zip(average_team_salaries,
rosters.keys()))`, sort the averages ascending, and print
`(team_with_salary[key], round(key, 2))` per line.  Report 2:
`dict(zip(highest_salary_per_team, rosters.keys()))`, sort the
(player, salary) pairs by the salary, and print `(team_with_highest[key],
key)` per line.  Each printed line is modelled as the pair of its two
`print` arguments. -/
def calculate_statistic (rosters : List (String × List (String × String))) :
    Except String (List (String × ℚ) × List (String × (String × ℤ))) := do
  let stats ← teamStats rosters
  let average_team_salaries := stats.map (fun s => s.2)
  let highest_salary_per_team := stats.map (fun s => s.1)
  let team_with_salary := pyDict (average_team_salaries.zip (rosters.map (fun r => r.1)))
  let rep1 ← (pySort (fun a b => decide (a < b)) average_team_salaries).mapM
      (fun a => do
        let t ← lookupOrKeyError team_with_salary a
        Except.ok (t, pyRound2 a))
  let team_with_highest := pyDict (highest_salary_per_team.zip (rosters.map (fun r => r.1)))
  let rep2 ← (pySort (fun x y => decide (x.2 < y.2)) highest_salary_per_team).mapM
      (fun hi => do
        let t ← lookupOrKeyError team_with_highest hi
        Except.ok (t, hi))
  Except.ok (rep1, rep2)

/-- Model of `build_team_url` (lines 6-18), from the `re.findall` matches on the
directory page: `dict` the (slug, name) pairs, build one roster URL per team,
return `dict(zip(teams.values(), roster_urls))`. -/
def build_team_url (found : List (String × String)) : List (String × String) :=
  let teams := pyDict found
  let roster_urls := teams.map (fun p =>
    "http://www.espn.com/nba/team/roster/_/name/" ++ p.1 ++ "/" ++ p.2)
  (teams.map (fun p => p.2)).zip roster_urls

/-! ## scrape_nba_statistics.py -/

/-- Model of `build_team_urls` (lines 9-20), the Python 3 variant of
`build_team_url`, from the `re.findall` matches on the directory page. -/
def build_team_urls (found : List (String × String)) : List (String × String) :=
  let teams := pyDict found
  let roster_urls := teams.map (fun p =>
    "https://www.espn.com/nba/team/roster/_/name/" ++ p.1 ++ "/" ++ p.2)
  (teams.map (fun p => p.2)).zip roster_urls

/-- Python regex `\w` (word character), on the ASCII names this page carries. -/
def isWordChar (c : Char) : Bool := c.isAlphanum || c = '_'

/-- Whether a whole string matches the name capture `\w+\s\w+` of the player
regexes (line 27 of `scrape_nba_statistics.py`, line 42 of
`scrape_nba_salaries.py`).  Both captures are anchored on each side by
literal markup, so the entire display name must match. -/
def matchesNamePat (cs : List Char) : Bool :=
  match cs.dropWhile isWordChar with
  | [] => false
  | c :: rest =>
    (!(cs.takeWhile isWordChar).isEmpty) && c.isWhitespace && (!rest.isEmpty) &&
      rest.all isWordChar

/-- Model of `get_player_info` (lines 23-32), from the roster entries present in the
page (display name, attribute payload): `re.findall` keeps exactly
the entries whose name matches the pattern, then the loop builds the
name-keyed dict. -/
def get_player_info {α : Type} (entries : List (String × α)) : List (String × α) :=
  pyDict (entries.filter (fun e => matchesNamePat e.1.toList))

/-- The `try`-block body on the extracted career string (lines 62-64):
`replace("\x22", "")`, split on commas, split every token on hyphens,
convert every token with `float`; `none` models any exception. -/
def parse_career (s : String) : Option (List ℚ) :=
  let toks := splitOnChar ',' (s.toList.filter (fun c => c ≠ quoteChar))
  let toks := (toks.map (splitOnChar '-')).flatten
  toks.mapM pyFloat?

/-- One iteration of the career-stats loop (lines 59-68): `career_info[0]`
on the `re.findall` result (IndexError on no match is caught), then
`parse_career`; `none` means the `except` branch ran. -/
def career_step (findall : List String) : Option (List ℚ) :=
  match findall with
  | [] => none
  | s :: _ => parse_career s

/-- The observable outcome of the career-stats loop: the appended DataFrame
rows and the diagnostic prints, both in loop order. -/
structure LoopResult where
  records : List (String × List ℚ)
  log : List String
deriving DecidableEq

/-- The career-stats loop (lines 52-68) over the players, each given with its
`re.findall` result: a successful parse appends a row named by the player; a
failure prints `player_index + " has no info, "` and continues. -/
def career_loop : List (String × List String) → LoopResult
  | [] => ⟨[], []⟩
  | (p, fr) :: rest =>
    match career_step fr with
    | some stats => ⟨(p, stats) :: (career_loop rest).records, (career_loop rest).log⟩
    | none => ⟨(career_loop rest).records, (p ++ " has no info, ") :: (career_loop rest).log⟩

/-- Model of `convert_height` (lines 73-77): split on a space, strip the apostrophe
from the feet part and the double quote from the inches part, `float` both,
return `feet*12 + inches`.  `none` models the IndexError/ValueError paths. -/
def convert_height (height : String) : Option ℚ := do
  let split_height := splitOnChar ' ' height.toList
  let p0 ← split_height[0]?
  let p1 ← split_height[1]?
  let feet ← pyFloat? (p0.filter (fun c => c ≠ apostChar))
  let inches ← pyFloat? (p1.filter (fun c => c ≠ quoteChar))
  some (feet * 12 + inches)

/-- The salary cleaning of line 80 applied to a string cell:
`int(re.sub(r'[^\d.]+', '', s))`; `none` models the `ValueError` raised when
nothing numeric remains. -/
def clean_salary (s : String) : Option ℤ :=
  pyInt? (s.toList.filter (fun c => c.isDigit || c = '.'))

/-- Model of `all_players_df.join(career_stats_df)` (line 72): a left join on the row
index.  Each left row keeps its attributes and picks up the first
stat row with the same index, if any (`none` models the NaN row). -/
def pdJoin {α β : Type} (left : List (String × α)) (right : List (String × β)) :
    List (String × α × Option β) :=
  left.map (fun p => (p.1, p.2, (right.find? (fun q => q.1 = p.1)).map (fun q => q.2)))

/-! ## Helper lemmas -/

attribute [local semireducible] Rat.add Rat.mul Rat.inv Rat.sub

theorem except_bind_ok {ε α β : Type} (a : α) (f : α → Except ε β) :
    (Except.ok a >>= f : Except ε β) = f a := rfl

theorem pyInsert_perm {α : Type} (lt : α → α → Bool) (x : α) :
    ∀ l : List α, (pyInsert lt x l).Perm (x :: l)
  | [] => List.Perm.refl _
  | y :: ys => by
    unfold pyInsert
    cases hyx : lt y x
    · simp only [Bool.false_eq_true, if_false]
      exact List.Perm.refl _
    · simp only [if_true]
      exact ((pyInsert_perm lt x ys).cons y).trans (List.Perm.swap x y ys)

theorem pySort_perm {α : Type} (lt : α → α → Bool) :
    ∀ l : List α, (pySort lt l).Perm l
  | [] => List.Perm.refl _
  | x :: xs =>
    (pyInsert_perm lt x (pySort lt xs)).trans ((pySort_perm lt xs).cons x)

theorem mem_pyInsert {α : Type} {lt : α → α → Bool} {x a : α} {l : List α}
    (h : a ∈ pyInsert lt x l) : a = x ∨ a ∈ l :=
  List.mem_cons.mp ((pyInsert_perm lt x l).mem_iff.mp h)

theorem pyInsert_pairwise {α : Type} {lt : α → α → Bool}
    (asym : ∀ a b, lt a b = true → lt b a = false)
    (negtrans : ∀ a b c, lt a b = false → lt b c = false → lt a c = false)
    (x : α) :
    ∀ l : List α, l.Pairwise (fun a b => lt b a = false) →
      (pyInsert lt x l).Pairwise (fun a b => lt b a = false)
  | [], _ => List.pairwise_singleton _ x
  | y :: ys, h => by
    rw [List.pairwise_cons] at h
    unfold pyInsert
    cases hyx : lt y x
    · simp only [Bool.false_eq_true, if_false, List.pairwise_cons]
      refine ⟨fun z hz => ?_, h⟩
      rcases List.mem_cons.mp hz with rfl | hz
      · exact hyx
      · exact negtrans z y x (h.1 z hz) hyx
    · simp only [if_true, List.pairwise_cons]
      refine ⟨fun z hz => ?_, pyInsert_pairwise asym negtrans x ys h.2⟩
      rcases mem_pyInsert hz with rfl | hz
      · exact asym y z hyx
      · exact h.1 z hz

theorem pySort_pairwise {α : Type} {lt : α → α → Bool}
    (asym : ∀ a b, lt a b = true → lt b a = false)
    (negtrans : ∀ a b c, lt a b = false → lt b c = false → lt a c = false) :
    ∀ l : List α, (pySort lt l).Pairwise (fun a b => lt b a = false)
  | [] => List.Pairwise.nil
  | x :: xs => pyInsert_pairwise asym negtrans x _ (pySort_pairwise asym negtrans xs)

theorem pairwise_getLast? {α : Type} {R : α → α → Prop} {l : List α} {m : α}
    (hp : l.Pairwise R) (h : l.getLast? = some m) :
    ∀ x ∈ l, x = m ∨ R x m := by
  obtain ⟨ys, rfl⟩ := List.getLast?_eq_some_iff.1 h
  rw [List.pairwise_append] at hp
  intro x hx
  rcases List.mem_append.1 hx with hx | hx
  · exact Or.inr (hp.2.2 x hx m (List.mem_singleton_self m))
  · rcases List.mem_singleton.1 hx with rfl
    exact Or.inl rfl

theorem pyDict_go_nodup {α β : Type} [DecidableEq α] :
    ∀ (l acc : List (α × β)),
      (∀ p ∈ l, ∀ q ∈ acc, p.1 ≠ q.1) → (l.map Prod.fst).Nodup →
      l.foldl (fun d p => pyDictInsert d p.1 p.2) acc = acc ++ l
  | [], acc, _, _ => by simp
  | (k, v) :: rest, acc, hdisj, hnd => by
    have hknot : acc.any (fun p => p.1 = k) = false := by
      rw [List.any_eq_false]
      intro q hq
      simpa using (hdisj (k, v) (List.mem_cons_self _ _) q hq).symm
    have hins : pyDictInsert acc k v = acc ++ [(k, v)] := by
      unfold pyDictInsert
      rw [hknot]
      simp
    rw [List.map_cons, List.nodup_cons] at hnd
    have hrest : rest.foldl (fun d p => pyDictInsert d p.1 p.2) (acc ++ [(k, v)]) =
        (acc ++ [(k, v)]) ++ rest := by
      refine pyDict_go_nodup rest (acc ++ [(k, v)]) ?_ hnd.2
      intro p hp q hq
      rcases List.mem_append.1 hq with hq | hq
      · exact hdisj p (List.mem_cons_of_mem _ hp) q hq
      · rcases List.mem_singleton.1 hq with rfl
        intro hpk
        exact hnd.1 (hpk ▸ List.mem_map_of_mem Prod.fst hp)
    simp only [List.foldl_cons, hins, hrest, List.append_assoc, List.singleton_append]

/-- Building a Python dict from pairs with pairwise-distinct keys keeps the
pairs as they are. -/
theorem pyDict_nodup {α β : Type} [DecidableEq α] (l : List (α × β))
    (hnd : (l.map Prod.fst).Nodup) : pyDict l = l := by
  simpa using pyDict_go_nodup l [] (fun p _ q hq => absurd hq (List.not_mem_nil q)) hnd

theorem mem_pyDictInsert {α β : Type} [DecidableEq α] {d : List (α × β)}
    {k0 k : α} {v0 v : β}
    (h : (k, v) ∈ pyDictInsert d k0 v0) : (k, v) ∈ d ∨ (k = k0 ∧ v = v0) := by
  unfold pyDictInsert at h
  split at h
  · rcases List.mem_map.1 h with ⟨p, hp, hpe⟩
    by_cases hk : p.1 = k0
    · rw [if_pos hk] at hpe
      injection hpe with h1 h2
      exact Or.inr ⟨h1.symm, h2.symm⟩
    · rw [if_neg hk] at hpe
      exact Or.inl (hpe ▸ hp)
  · rcases List.mem_append.1 h with h | h
    · exact Or.inl h
    · have h2 := List.mem_singleton.1 h
      injection h2 with h3 h4
      exact Or.inr ⟨h3, h4⟩

theorem pyDict_go_key_mem {α β : Type} [DecidableEq α] :
    ∀ (l acc : List (α × β)) (k : α) (v : β),
      (k, v) ∈ l.foldl (fun d p => pyDictInsert d p.1 p.2) acc →
      (k, v) ∈ acc ∨ ∃ v2, (k, v2) ∈ l
  | [], acc, k, v, h => Or.inl h
  | p :: rest, acc, k, v, h => by
    rcases pyDict_go_key_mem rest (pyDictInsert acc p.1 p.2) k v h with h2 | ⟨v2, hv2⟩
    · rcases mem_pyDictInsert h2 with h3 | ⟨rfl, rfl⟩
      · exact Or.inl h3
      · exact Or.inr ⟨p.2, List.mem_cons_self _ _⟩
    · exact Or.inr ⟨v2, List.mem_cons_of_mem _ hv2⟩

/-- A key of a Python dict comes from some input pair. -/
theorem pyDict_key_mem {α β : Type} [DecidableEq α] {l : List (α × β)} {k : α} {v : β}
    (h : (k, v) ∈ pyDict l) : ∃ v2, (k, v2) ∈ l := by
  rcases pyDict_go_key_mem l [] k v h with h | h
  · cases h
  · exact h

theorem find?_zip_of_mem {α β : Type} [DecidableEq α] :
    ∀ (ks : List α) (vs : List β) (k : α) (v : β), ks.Nodup → (k, v) ∈ ks.zip vs →
      (ks.zip vs).find? (fun p => p.1 = k) = some (k, v)
  | [], vs, k, v, _, h => by simp at h
  | k0 :: ks, [], k, v, _, h => by simp at h
  | k0 :: ks, v0 :: vs, k, v, hnd, h => by
    rw [List.nodup_cons] at hnd
    rw [List.zip_cons_cons] at h ⊢
    by_cases hk : k0 = k
    · subst hk
      rcases List.mem_cons.1 h with h | h
      · rw [List.find?_cons_of_pos _ (by simp)]
        exact congrArg some h.symm
      · exact absurd ((List.of_mem_zip h).1) hnd.1
    · rcases List.mem_cons.1 h with h | h
      · exact absurd (congrArg Prod.fst h).symm hk
      · rw [List.find?_cons_of_neg _ (by simpa using hk)]
        exact find?_zip_of_mem ks vs k v hnd.2 h

theorem mapM_ok_of_forall {α β : Type} {F : α → Except String β} {g : α → β} :
    ∀ {xs : List α}, (∀ x ∈ xs, F x = Except.ok (g x)) →
      xs.mapM F = Except.ok (xs.map g)
  | [], _ => rfl
  | x :: xs, h => by
    rw [List.mapM_cons, h x (List.mem_cons_self _ _),
      mapM_ok_of_forall (fun y hy => h y (List.mem_cons_of_mem _ hy))]
    rfl

theorem mapM_ok_length {α β : Type} {F : α → Except String β} :
    ∀ {xs : List α} {ys : List β}, xs.mapM F = Except.ok ys → ys.length = xs.length
  | [], ys, h => by
    simp only [List.mapM_nil] at h
    cases h
    rfl
  | x :: xs, ys, h => by
    rw [List.mapM_cons] at h
    cases hx : F x with
    | error e => rw [hx] at h; cases h
    | ok y =>
      rw [hx] at h
      cases hxs : xs.mapM F with
      | error e => rw [hxs] at h; cases h
      | ok ys2 =>
        rw [hxs] at h
        cases h
        simpa using mapM_ok_length hxs

theorem mapM_ok_mem {α β : Type} {F : α → Except String β} :
    ∀ {xs : List α} {ys : List β}, xs.mapM F = Except.ok ys →
      ∀ y ∈ ys, ∃ x ∈ xs, F x = Except.ok y
  | [], ys, h => by
    simp only [List.mapM_nil] at h
    cases h
    intro y hy
    cases hy
  | x :: xs, ys, h => by
    rw [List.mapM_cons] at h
    cases hx : F x with
    | error e => rw [hx] at h; cases h
    | ok y0 =>
      rw [hx] at h
      cases hxs : xs.mapM F with
      | error e => rw [hxs] at h; cases h
      | ok ys2 =>
        rw [hxs] at h
        cases h
        intro y hy
        rcases List.mem_cons.1 hy with rfl | hy
        · exact ⟨x, List.mem_cons_self _ _, hx⟩
        · rcases mapM_ok_mem hxs y hy with ⟨x2, hx2, he⟩
          exact ⟨x2, List.mem_cons_of_mem _ hx2, he⟩

theorem splitOnChar_ne_nil (sep : Char) : ∀ l : List Char, splitOnChar sep l ≠ []
  | [] => by simp [splitOnChar]
  | c :: cs => by
    unfold splitOnChar
    by_cases h : c = sep
    · simp [h]
    · rw [if_neg h]
      rcases hs : splitOnChar sep cs with _ | ⟨t, ts⟩
      · simp
      · simp

/-- Splitting a list without the separator yields the single fragment. -/
theorem splitOnChar_of_no_sep {sep : Char} :
    ∀ {l : List Char}, (∀ c ∈ l, c ≠ sep) → splitOnChar sep l = [l]
  | [], _ => rfl
  | c :: cs, h => by
    unfold splitOnChar
    rw [if_neg (h c (List.mem_cons_self _ _)),
      splitOnChar_of_no_sep (fun x hx => h x (List.mem_cons_of_mem _ hx))]

/-- Splitting at the first separator occurrence peels off the leading fragment. -/
theorem splitOnChar_append {sep : Char} :
    ∀ {a : List Char} (b : List Char), (∀ c ∈ a, c ≠ sep) →
      splitOnChar sep (a ++ sep :: b) = a :: splitOnChar sep b
  | [], b, _ => by simp [splitOnChar]
  | c :: a2, b, h => by
    have hc : c ≠ sep := h c (List.mem_cons_self _ _)
    have ih := splitOnChar_append (a := a2) b (fun x hx => h x (List.mem_cons_of_mem _ hx))
    simp only [List.cons_append]
    rw [splitOnChar, if_neg hc, ih]

theorem dropWhile_of_none {p : Char → Bool} :
    ∀ {l : List Char}, (∀ c ∈ l, p c = false) → l.dropWhile p = l
  | [], _ => rfl
  | c :: cs, h => by
    rw [List.dropWhile_cons_of_neg]
    simp [h c (List.mem_cons_self _ _)]

theorem digit_not_whitespace {c : Char} (h : c.isDigit = true) : c.isWhitespace = false := by
  rcases Bool.eq_false_or_eq_true c.isWhitespace with hw | hw
  · exfalso
    simp only [Char.isWhitespace, Bool.or_eq_true, decide_eq_true_eq, or_assoc] at hw
    rcases hw with rfl | rfl | rfl | rfl <;> exact absurd h (by decide)
  · exact hw

theorem pyTrim_of_no_ws {l : List Char} (h : ∀ c ∈ l, c.isWhitespace = false) :
    pyTrim l = l := by
  unfold pyTrim
  rw [dropWhile_of_none h, dropWhile_of_none (fun c hc => h c (List.mem_reverse.1 hc)),
    List.reverse_reverse]

/-- Running `int()` on a nonempty all-digit string parses it by place value. -/
theorem pyInt?_digits {l : List Char} (hne : l ≠ []) (hd : ∀ c ∈ l, c.isDigit = true) :
    pyInt? l = some ((natOfDigits l : ℤ)) := by
  unfold pyInt?
  rw [pyTrim_of_no_ws (fun c hc => digit_not_whitespace (hd c hc))]
  rcases l with _ | ⟨c, cs⟩
  · exact absurd rfl hne
  · have hc : c.isDigit = true := hd c (List.mem_cons_self _ _)
    have hcm : c ≠ '-' := by rintro rfl; exact absurd hc (by decide)
    have hcp : c ≠ '+' := by rintro rfl; exact absurd hc (by decide)
    have hall : (c :: cs).all Char.isDigit = true := List.all_eq_true.2 hd
    split
    · next rest heq => exact absurd (List.head_eq_of_cons_eq heq) hcm
    · next rest heq => exact absurd (List.head_eq_of_cons_eq heq) hcp
    · rw [if_pos]
      simp [hall]

/-- Running `float()` on a nonempty all-digit string parses it by place value. -/
theorem pyFloat?_digits {l : List Char} (hne : l ≠ []) (hd : ∀ c ∈ l, c.isDigit = true) :
    pyFloat? l = some ((natOfDigits l : ℚ)) := by
  unfold pyFloat?
  have hnd : ∀ c ∈ l, c ≠ '.' := by
    intro c hc
    rintro rfl
    exact absurd (hd _ hc) (by decide)
  rw [splitOnChar_of_no_sep hnd]
  have hall : l.all Char.isDigit = true := List.all_eq_true.2 hd
  have hem : l.isEmpty = false := by
    rcases l with _ | ⟨c, cs⟩
    · exact absurd rfl hne
    · rfl
  simp [hem, hall]

theorem filter_eq_cons_split {α : Type} {p : α → Bool} :
    ∀ {l : List α} {x : α} {xs : List α}, l.filter p = x :: xs →
      ∃ pre suf, l = pre ++ x :: suf ∧ ∀ y ∈ pre, p y = false
  | [], x, xs, h => by simp at h
  | y :: l2, x, xs, h => by
    cases hy : p y
    · rw [List.filter_cons_of_neg (by simp [hy])] at h
      obtain ⟨pre, suf, rfl, hpre⟩ := filter_eq_cons_split h
      refine ⟨y :: pre, suf, rfl, ?_⟩
      intro z hz
      rcases List.mem_cons.1 hz with rfl | hz
      · exact hy
      · exact hpre z hz
    · rw [List.filter_cons_of_pos hy] at h
      injection h with h1 h2
      exact ⟨[], l2, by simp [h1], fun z hz => absurd hz (List.not_mem_nil z)⟩

theorem filter_key_eq_singleton {α β : Type} [DecidableEq α] :
    ∀ {l : List (α × β)} {k : α} {a : β},
      (k, a) ∈ l → (l.map Prod.fst).count k = 1 →
      l.filter (fun p => p.1 = k) = [(k, a)]
  | [], k, a, hmem, _ => absurd hmem (List.not_mem_nil _)
  | p :: rest, k, a, hmem, hcount => by
    rw [List.map_cons, List.count_cons] at hcount
    by_cases hpk : p.1 = k
    · have h0 : (rest.map Prod.fst).count k = 0 := by
        rw [if_pos (by simp [hpk])] at hcount
        omega
      have hnk : ∀ q ∈ rest, q.1 ≠ k := by
        intro q hq hqk
        exact absurd (List.count_eq_zero.1 h0) (by
          simp only [not_not]
          exact hqk ▸ List.mem_map_of_mem Prod.fst hq)
      have hpe : p = (k, a) := by
        rcases List.mem_cons.1 hmem with h | h
        · exact h.symm
        · exact absurd (hnk (k, a) h) (by simp)
      rw [List.filter_cons_of_pos (by simp [hpk]), hpe]
      have : rest.filter (fun q => q.1 = k) = [] := by
        rw [List.filter_eq_nil_iff]
        intro q hq
        simp [hnk q hq]
      rw [this]
    · have hmem2 : (k, a) ∈ rest := by
        rcases List.mem_cons.1 hmem with h | h
        · exact absurd (congrArg Prod.fst h).symm hpk
        · exact h
      rw [if_neg (by simp [hpk])] at hcount
      rw [List.filter_cons_of_neg (by simp [hpk])]
      exact filter_key_eq_singleton hmem2 (by omega)

theorem wordChar_not_whitespace {c : Char} (h : isWordChar c = true) :
    c.isWhitespace = false := by
  rcases Bool.eq_false_or_eq_true c.isWhitespace with hw | hw
  · exfalso
    simp only [Char.isWhitespace, Bool.or_eq_true, decide_eq_true_eq, or_assoc] at hw
    rcases hw with rfl | rfl | rfl | rfl <;> exact absurd h (by decide)
  · exact hw

/-- A full match of the name capture decomposes the string into a word-char
block, one whitespace character, and a second word-char block. -/
theorem matchesNamePat_shape {cs : List Char} (h : matchesNamePat cs = true) :
    ∃ w1 c w2, cs = w1 ++ c :: w2 ∧ w1 ≠ [] ∧ w2 ≠ [] ∧
      (∀ x ∈ w1, isWordChar x = true) ∧ c.isWhitespace = true ∧
      ∀ x ∈ w2, isWordChar x = true := by
  unfold matchesNamePat at h
  rcases hdrop : cs.dropWhile isWordChar with _ | ⟨c, rest⟩
  · rw [hdrop] at h
    cases h
  · rw [hdrop] at h
    simp only [Bool.and_eq_true, Bool.not_eq_eq_eq_not, Bool.not_true, List.all_eq_true] at h
    refine ⟨cs.takeWhile isWordChar, c, rest, ?_, ?_, ?_, ?_, h.1.1.2, h.2⟩
    · rw [← hdrop, List.takeWhile_append_dropWhile]
    · intro he
      rw [he] at h
      simp at h
    · intro he
      rw [he] at h
      simp at h
    · exact fun x hx => List.mem_takeWhile_imp hx

/-- How `calculate_statistic` prints one report: key a dict by the metric
list, sort the metrics, and look each metric up again.  When the metric keys
are pairwise distinct, the printed lines are exactly the (team, metric)
pairs, in ascending metric order. -/
theorem report_build {κ μ : Type} [DecidableEq κ] (ks : List κ) (vs : List String)
    (lt : κ → κ → Bool)
    (asym : ∀ a b, lt a b = true → lt b a = false)
    (negtrans : ∀ a b c, lt a b = false → lt b c = false → lt a c = false)
    (hlen : ks.length = vs.length) (hnd : ks.Nodup) (out : String → κ → μ) :
    ∃ l : List (String × κ),
      ((pySort lt ks).mapM (fun a => do
          let t ← lookupOrKeyError (pyDict (ks.zip vs)) a
          Except.ok (out t a)) : Except String (List μ)) =
        Except.ok (l.map (fun p => out p.1 p.2)) ∧
      l.Perm (vs.zip ks) ∧ l.Pairwise (fun x y => lt y.2 x.2 = false) := by
  have hdict : pyDict (ks.zip vs) = ks.zip vs :=
    pyDict_nodup _ (by rw [List.map_fst_zip _ _ (le_of_eq hlen)]; exact hnd)
  have hfind : ∀ i (h1 : i < ks.length) (h2 : i < vs.length),
      (ks.zip vs).find? (fun p => p.1 = ks[i]) = some (ks[i], vs[i]) := by
    intro i h1 h2
    refine find?_zip_of_mem ks vs _ _ hnd ?_
    have hz : i < (ks.zip vs).length := by
      rw [List.length_zip]
      omega
    have hgz := List.getElem_zip (l := ks) (h := hz)
    rw [← hgz]
    exact List.getElem_mem hz
  set g : κ → String :=
    fun a => (((ks.zip vs).find? (fun p => p.1 = a)).map Prod.snd).getD "" with hg
  have hgood : ∀ a ∈ pySort lt ks,
      (do
        let t ← lookupOrKeyError (pyDict (ks.zip vs)) a
        Except.ok (out t a) : Except String μ) = Except.ok (out (g a) a) := by
    intro a ha
    have haks : a ∈ ks := (pySort_perm lt ks).mem_iff.1 ha
    obtain ⟨i, h1, rfl⟩ := List.mem_iff_getElem.1 haks
    have h2 : i < vs.length := by omega
    have hga : g ks[i] = vs[i] := by
      simp [hg, hfind i h1 h2]
    rw [hdict]
    unfold lookupOrKeyError
    rw [hfind i h1 h2, hga]
    rfl
  refine ⟨(pySort lt ks).map (fun a => (g a, a)), ?_, ?_, ?_⟩
  · rw [mapM_ok_of_forall hgood, List.map_map]
    rfl
  · have h1 : ((pySort lt ks).map (fun a => (g a, a))).Perm (ks.map (fun a => (g a, a))) :=
      (pySort_perm lt ks).map _
    have h2 : ks.map (fun a => (g a, a)) = vs.zip ks := by
      refine List.ext_getElem (by rw [List.length_map, List.length_zip]; omega) ?_
      intro i hi1 hi2
      have h1i : i < ks.length := by simpa using hi1
      have h2i : i < vs.length := by omega
      rw [List.getElem_map, List.getElem_zip]
      have hga : g ks[i] = vs[i] := by
        simp [hg, hfind i h1i h2i]
      rw [hga]
    exact h2 ▸ h1
  · exact List.Pairwise.map _ (fun a b hab => hab) (pySort_pairwise asym negtrans ks)

theorem option_bind_some {α β : Type} (a : α) (f : α → Option β) :
    ((some a : Option α) >>= f) = f a := rfl

theorem int_lt_asym : ∀ a b : ℤ, decide (a < b) = true → decide (b < a) = false := by
  intro a b h
  simp only [decide_eq_true_eq] at h
  simp only [decide_eq_false_iff_not]
  omega

theorem int_lt_negtrans :
    ∀ a b c : ℤ, decide (a < b) = false → decide (b < c) = false →
      decide (a < c) = false := by
  intro a b c h1 h2
  simp only [decide_eq_false_iff_not] at h1 h2 ⊢
  omega

theorem rat_lt_asym : ∀ a b : ℚ, decide (a < b) = true → decide (b < a) = false := by
  intro a b h
  simp only [decide_eq_true_eq] at h
  simp only [decide_eq_false_iff_not]
  exact not_lt.2 (le_of_lt h)

theorem rat_lt_negtrans :
    ∀ a b c : ℚ, decide (a < b) = false → decide (b < c) = false →
      decide (a < c) = false := by
  intro a b c h1 h2
  simp only [decide_eq_false_iff_not, not_lt] at h1 h2 ⊢
  exact h2.trans h1

theorem pair_lt_asym :
    ∀ x y : String × ℤ, decide (x.2 < y.2) = true → decide (y.2 < x.2) = false :=
  fun x y h => int_lt_asym x.2 y.2 h

theorem pair_lt_negtrans :
    ∀ x y z : String × ℤ, decide (x.2 < y.2) = false → decide (y.2 < z.2) = false →
      decide (x.2 < z.2) = false :=
  fun x y z h1 h2 => int_lt_negtrans x.2 y.2 z.2 h1 h2

/-! ## Claims -/

/-- C1: the spec requires a team whose roster discloses zero salaries to be
skipped or flagged instead of faulting, but `calculate_statistic` raises an
uncaught IndexError at `sorted(salaries)[-1]` on such a team (and the
average on the next line would divide by zero); the run terminates instead
of excluding the team.  The code contradicts the spec here: evaluating the
embedded aggregation on a one-team input whose only salary cell is the
non-breaking-space placeholder produces the IndexError outcome. -/
theorem C1_zero_salary_team_faults :
    calculate_statistic [("TeamA", [("John Doe", "&nbsp;")])] =
      Except.error "IndexError" := by rfl

/-- C9: when the team-link pattern finds no matches on the directory page,
`build_team_url` and `build_team_urls` both return the empty mapping,
without raising any error and without signalling a distinct failure. -/
theorem C9_empty_directory_matches :
    build_team_url [] = [] ∧ build_team_urls [] = [] := ⟨rfl, rfl⟩

/-- C7: career-stat token splitting: the extracted career-totals string is
split on commas, a token containing one hyphen is further split into its two
halves, and every resulting token is converted to a float; in particular the
quoted input maps to [82, 82, 35.1, 9.2, 18.0, 51.1]. -/
theorem C7_career_token_split :
    parse_career "82,82,35.1,9.2-18.0,51.1" =
      some [82, 82, 351/10, 92/10, 18, 511/10] ∧
    ∀ t1 t2 : List Char, '-' ∉ t1 → '-' ∉ t2 →
      splitOnChar '-' (t1 ++ '-' :: t2) = [t1, t2] := by
  constructor
  · rfl
  · intro t1 t2 h1 h2
    rw [splitOnChar_append t2 (fun c hc => by rintro rfl; exact h1 hc),
      splitOnChar_of_no_sep (fun c hc => by rintro rfl; exact h2 hc)]

theorem C7_career_token_split_witness :
    splitOnChar '-' ("9.2".toList ++ '-' :: "18.0".toList) =
      ["9.2".toList, "18.0".toList] :=
  C7_career_token_split.2 "9.2".toList "18.0".toList (by decide) (by decide)

/-- C6: `convert_height` splits its input on the space, strips the quote
marks, and returns feet*12 + inches; the strings built below are exactly
the height cells for 6 feet 3 inches and 7 feet 0 inches, mapping to 75
and 84. -/
theorem C6_convert_height :
    (∀ f i : List Char, f ≠ [] → i ≠ [] →
        (∀ c ∈ f, c.isDigit = true) → (∀ c ∈ i, c.isDigit = true) →
        convert_height (String.mk (f ++ apostChar :: ' ' :: i ++ [quoteChar])) =
          some ((natOfDigits f : ℚ) * 12 + (natOfDigits i : ℚ))) ∧
    convert_height (String.mk (['6', apostChar, ' ', '3', quoteChar])) = some 75 ∧
    convert_height (String.mk (['7', apostChar, ' ', '0', quoteChar])) = some 84 := by
  refine ⟨?_, by rfl, by rfl⟩
  intro f i hf hi hdf hdi
  have hnof : ∀ c ∈ f ++ [apostChar], c ≠ ' ' := by
    intro c hc
    rcases List.mem_append.1 hc with hc | hc
    · rintro rfl
      exact absurd (hdf _ hc) (by decide)
    · rcases List.mem_singleton.1 hc with rfl
      decide
  have hnoi : ∀ c ∈ i ++ [quoteChar], c ≠ ' ' := by
    intro c hc
    rcases List.mem_append.1 hc with hc | hc
    · rintro rfl
      exact absurd (hdi _ hc) (by decide)
    · rcases List.mem_singleton.1 hc with rfl
      decide
  have htl : (String.mk (f ++ apostChar :: ' ' :: i ++ [quoteChar])).toList =
      (f ++ [apostChar]) ++ ' ' :: (i ++ [quoteChar]) := by
    show f ++ apostChar :: ' ' :: i ++ [quoteChar] = _
    simp
  have hsplit : splitOnChar ' ' ((f ++ [apostChar]) ++ ' ' :: (i ++ [quoteChar])) =
      (f ++ [apostChar]) :: [i ++ [quoteChar]] := by
    rw [splitOnChar_append _ hnof, splitOnChar_of_no_sep hnoi]
  have hff : (f ++ [apostChar]).filter (fun c => c ≠ apostChar) = f := by
    rw [List.filter_append]
    have h1 : f.filter (fun c => c ≠ apostChar) = f := by
      rw [List.filter_eq_self]
      intro c hc
      simp only [decide_eq_true_eq]
      rintro rfl
      exact absurd (hdf _ hc) (by decide)
    have h2 : [apostChar].filter (fun c => c ≠ apostChar) = [] := by decide
    rw [h1, h2, List.append_nil]
  have hfi : (i ++ [quoteChar]).filter (fun c => c ≠ quoteChar) = i := by
    rw [List.filter_append]
    have h1 : i.filter (fun c => c ≠ quoteChar) = i := by
      rw [List.filter_eq_self]
      intro c hc
      simp only [decide_eq_true_eq]
      rintro rfl
      exact absurd (hdi _ hc) (by decide)
    have h2 : [quoteChar].filter (fun c => c ≠ quoteChar) = [] := by decide
    rw [h1, h2, List.append_nil]
  unfold convert_height
  rw [htl, hsplit]
  simp only [List.getElem?_cons_zero, List.getElem?_cons_succ, option_bind_some]
  rw [hff, hfi, pyFloat?_digits hf hdf, pyFloat?_digits hi hdi]
  rfl

theorem C6_convert_height_witness :
    convert_height (String.mk (['1', '0'] ++ apostChar :: ' ' :: ['2'] ++ [quoteChar])) =
      some ((natOfDigits ['1', '0'] : ℚ) * 12 + (natOfDigits ['2'] : ℚ)) :=
  C6_convert_height.1 ['1', '0'] ['2'] (by decide) (by decide) (by decide) (by decide)

theorem career_loop_cons (qp : String) (qf : List String)
    (rest : List (String × List String)) :
    career_loop ((qp, qf) :: rest) =
      match career_step qf with
      | some stats =>
        ⟨(qp, stats) :: (career_loop rest).records, (career_loop rest).log⟩
      | none =>
        ⟨(career_loop rest).records,
          (qp ++ " has no info, ") :: (career_loop rest).log⟩ := rfl

/-- C5: a player whose career-stats page yields no parseable career-totals
record produces no stats row; the loop prints the diagnostic note naming the
player and processes the remaining players exactly as it would without this
player. -/
theorem C5_career_loop_skips (pre post : List (String × List String))
    (p : String) (fr : List String) (h : career_step fr = none) :
    (career_loop (pre ++ (p, fr) :: post)).records =
      (career_loop (pre ++ post)).records ∧
    (p ++ " has no info, ") ∈ (career_loop (pre ++ (p, fr) :: post)).log := by
  induction pre with
  | nil =>
    simp only [List.nil_append]
    refine ⟨?_, ?_⟩
    · rw [career_loop_cons, h]
    · rw [career_loop_cons, h]
      exact List.mem_cons_self _ _
  | cons q pre ih =>
    obtain ⟨qp, qf⟩ := q
    simp only [List.cons_append]
    rcases hq : career_step qf with _ | stats
    · refine ⟨?_, ?_⟩
      · rw [career_loop_cons, career_loop_cons, hq]
        exact ih.1
      · rw [career_loop_cons, hq]
        exact List.mem_cons_of_mem _ ih.2
    · refine ⟨?_, ?_⟩
      · rw [career_loop_cons, career_loop_cons, hq]
        exact congrArg (List.cons (qp, stats)) ih.1
      · rw [career_loop_cons, hq]
        exact ih.2

theorem C5_career_loop_skips_witness :
    (career_loop ([("Al Aa", ["82,82"])] ++ ("Bo Bb", ([] : List String)) ::
        [("Cy Cc", ["1.5,2-3"])])).records =
      (career_loop ([("Al Aa", ["82,82"])] ++ [("Cy Cc", ["1.5,2-3"])])).records ∧
    ("Bo Bb" ++ " has no info, ") ∈
      (career_loop ([("Al Aa", ["82,82"])] ++ ("Bo Bb", ([] : List String)) ::
        [("Cy Cc", ["1.5,2-3"])])).log :=
  C5_career_loop_skips [("Al Aa", ["82,82"])] [("Cy Cc", ["1.5,2-3"])] "Bo Bb" [] rfl

/-- C4: the left join keeps a player present in the attribute table exactly
once and with its attribute record when the career-stat table has no row for
that player, and the stat column is the empty marker; the player is neither
duplicated nor dropped. -/
theorem C4_join_left_only {α β : Type} (left : List (String × α))
    (right : List (String × β)) (k : String) (a : α)
    (hmem : (k, a) ∈ left) (hcount : (left.map Prod.fst).count k = 1)
    (habs : ∀ q ∈ right, q.1 ≠ k) :
    (pdJoin left right).filter (fun r => r.1 = k) = [(k, a, none)] := by
  unfold pdJoin
  rw [List.filter_map]
  have hleft : left.filter (fun p => p.1 = k) = [(k, a)] :=
    filter_key_eq_singleton hmem hcount
  have hfnone : right.find? (fun q => q.1 = k) = none :=
    List.find?_eq_none.2 (fun q hq => by simp [habs q hq])
  show (left.filter (fun p => p.1 = k)).map
      (fun p => (p.1, p.2, (right.find? (fun q => q.1 = p.1)).map (fun q => q.2))) =
    [(k, a, none)]
  rw [hleft]
  simp [hfnone]

theorem C4_join_left_only_witness :
    (pdJoin [("A B", (1 : ℤ)), ("C D", 2)] [("C D", (5 : ℤ))]).filter
        (fun r => r.1 = "A B") = [("A B", 1, none)] :=
  C4_join_left_only [("A B", (1 : ℤ)), ("C D", 2)] [("C D", (5 : ℤ))] "A B" 1
    (by decide) (by decide) (by decide)

/-- C2: salary normalization: a cell made of a dollar sign, commas and
digits normalizes to the integer written by its digits (in particular the
quoted example maps to 34382550, also under the statistics-script cleaner);
the non-breaking-space placeholder maps to the distinct Not Reported
sentinel, which differs from the number 0, and neither path faults. -/
theorem C2_salary_normalization :
    (∀ s : String,
        (∀ c ∈ s.toList, c.isDigit = true ∨ c = ',' ∨ c = '$') →
        (∃ c ∈ s.toList, c.isDigit = true) →
        normSalaryStr s =
          some (Salary.num ((natOfDigits (s.toList.filter Char.isDigit) : ℤ)))) ∧
    normSalaryStr "&nbsp;" = some Salary.notReported ∧
    Salary.notReported ≠ Salary.num 0 ∧
    normSalaryStr "$34,382,550" = some (Salary.num 34382550) ∧
    clean_salary "$34,382,550" = some 34382550 := by
  refine ⟨?_, rfl, by decide, rfl, rfl⟩
  intro s hall hex
  have hne : s ≠ "&nbsp;" := by
    rintro rfl
    rcases hall '&' (by decide) with h | h | h <;> exact absurd h (by decide)
  unfold normSalaryStr
  rw [if_neg hne]
  have hfe : stripMoney s = s.toList.filter Char.isDigit := by
    unfold stripMoney
    refine List.filter_congr ?_
    intro c hc
    rcases hall c hc with h | rfl | rfl
    · have hc1 : c ≠ ',' := by rintro rfl; exact absurd h (by decide)
      have hc2 : c ≠ '$' := by rintro rfl; exact absurd h (by decide)
      simp [h, hc1, hc2]
    · decide
    · decide
  obtain ⟨c0, hc0, hc0d⟩ := hex
  have hne2 : s.toList.filter Char.isDigit ≠ [] :=
    List.ne_nil_of_mem (List.mem_filter.2 ⟨hc0, hc0d⟩)
  have hdig : ∀ c ∈ s.toList.filter Char.isDigit, c.isDigit = true :=
    fun c hc => List.of_mem_filter hc
  rw [hfe, pyInt?_digits hne2 hdig]
  rfl

theorem C2_salary_normalization_witness :
    normSalaryStr "$34,382,550" =
      some (Salary.num
        ((natOfDigits ("$34,382,550".toList.filter Char.isDigit) : ℤ))) :=
  C2_salary_normalization.1 "$34,382,550" (by decide) (by decide)

/-- C10: every key of the extracted player mapping is a run of word
characters, one whitespace character, and a second run of word characters
(the shape forced by the name capture); a roster entry whose display name
contains a hyphen, apostrophe or period, or at least two whitespace
characters (a third name part), never becomes a key and is silently
omitted. -/
theorem C10_player_name_invariant (α : Type) (entries : List (String × α)) :
    (∀ k (a : α), (k, a) ∈ get_player_info entries →
        ∃ w1 c w2, k.toList = w1 ++ c :: w2 ∧ w1 ≠ [] ∧ w2 ≠ [] ∧
          (∀ x ∈ w1, isWordChar x = true) ∧ c.isWhitespace = true ∧
          ∀ x ∈ w2, isWordChar x = true) ∧
    (∀ k : String,
        ((∃ c ∈ k.toList, c = '-' ∨ c = apostChar ∨ c = '.') ∨
          2 ≤ k.toList.countP (fun c => c.isWhitespace)) →
        ∀ b : α, (k, b) ∉ get_player_info entries) := by
  have hpat : ∀ (k : String) (a : α), (k, a) ∈ get_player_info entries →
      matchesNamePat k.toList = true := by
    intro k a hmem
    unfold get_player_info at hmem
    obtain ⟨v2, hv2⟩ := pyDict_key_mem hmem
    simpa using List.of_mem_filter hv2
  constructor
  · intro k a hmem
    exact matchesNamePat_shape (hpat k a hmem)
  · intro k hbad b hmem
    obtain ⟨w1, c, w2, he, hw1ne, hw2ne, hw1, hcw, hw2⟩ :=
      matchesNamePat_shape (hpat k b hmem)
    rcases hbad with ⟨x, hx, hxbad⟩ | hcount
    · have hxw : isWordChar x = false := by
        rcases hxbad with rfl | rfl | rfl <;> decide
      have hxws : x.isWhitespace = false := by
        rcases hxbad with rfl | rfl | rfl <;> decide
      rw [he] at hx
      rcases List.mem_append.1 hx with hx2 | hx2
      · exact absurd (hw1 x hx2) (by simp [hxw])
      · rcases List.mem_cons.1 hx2 with rfl | hx3
        · exact absurd hcw (by simp [hxws])
        · exact absurd (hw2 x hx3) (by simp [hxw])
    · rw [he, List.countP_append, List.countP_cons_of_pos _ _ (by simpa using hcw)]
        at hcount
      have h1 : w1.countP (fun c => c.isWhitespace) = 0 := by
        rw [List.countP_eq_zero]
        intro x hx
        simp [wordChar_not_whitespace (hw1 x hx)]
      have h2 : w2.countP (fun c => c.isWhitespace) = 0 := by
        rw [List.countP_eq_zero]
        intro x hx
        simp [wordChar_not_whitespace (hw2 x hx)]
      omega

theorem C10_player_name_invariant_witness :
    (∃ w1 c w2, "Stephen Curry".toList = w1 ++ c :: w2 ∧ w1 ≠ [] ∧ w2 ≠ [] ∧
        (∀ x ∈ w1, isWordChar x = true) ∧ c.isWhitespace = true ∧
        ∀ x ∈ w2, isWordChar x = true) ∧
    ("Karl-Anthony Towns", (2 : ℤ)) ∉
      get_player_info [("Stephen Curry", (1 : ℤ)), ("Karl-Anthony Towns", 2)] :=
  ⟨(C10_player_name_invariant ℤ
      [("Stephen Curry", (1 : ℤ)), ("Karl-Anthony Towns", 2)]).1
      "Stephen Curry" 1 (by decide),
   (C10_player_name_invariant ℤ
      [("Stephen Curry", (1 : ℤ)), ("Karl-Anthony Towns", 2)]).2
      "Karl-Anthony Towns" (Or.inl ⟨'-', by decide, Or.inl rfl⟩) 2⟩

/-- C8: whenever the per-team aggregation succeeds, the reported
highest-paid player occurs in the normalized player dict with salary equal
to the reported maximum, every other disclosed salary is at most that
maximum, and every player listed before the reported one has a different
(hence lower or undisclosed) salary value — the first player encountered at
the maximum wins the tie. -/
theorem C8_highest_paid (ps : List (String × String)) (name : String)
    (mx : ℤ) (avg : ℚ) (h : teamStep ps = Except.ok ((name, mx), avg)) :
    ∃ d, normalize (pyDict ps) = Except.ok d ∧
      (∃ pre suf, d = pre ++ (name, Salary.num mx) :: suf ∧
        ∀ q ∈ pre, q.2 ≠ Salary.num mx) ∧
      ∀ k n, (k, Salary.num n) ∈ d → n ≤ mx := by
  unfold teamStep at h
  cases hn : normalize (pyDict ps) with
  | error e => rw [hn] at h; cases h
  | ok d =>
    rw [hn] at h
    simp only [except_bind_ok] at h
    split at h
    · cases h
    · next mx2 hm =>
      split at h
      · cases h
      · next name2 hf =>
        split at h
        · cases h
        · injection h with h2
          injection h2 with h3 h4
          injection h3 with h5 h6
          rw [h6] at hf hm
          rw [h5] at hf
          refine ⟨d, rfl, ?_, ?_⟩
          · unfold find_key at hf
            cases hfl : d.filter (fun p => p.2 = Salary.num mx) with
            | nil => rw [hfl] at hf; cases hf
            | cons q rest =>
              rw [hfl] at hf
              simp only [List.map_cons, List.head?_cons, Option.some.injEq] at hf
              have hq2 : q.2 = Salary.num mx := by
                have hqmem : q ∈ d.filter (fun p => p.2 = Salary.num mx) := by
                  rw [hfl]
                  exact List.mem_cons_self q rest
                simpa using (List.mem_filter.1 hqmem).2
              obtain ⟨pre, suf, heq, hpre⟩ := filter_eq_cons_split hfl
              have hqe : q = (name, Salary.num mx) := by
                obtain ⟨q1, q2⟩ := q
                simp only at hf hq2
                rw [hf, hq2]
              refine ⟨pre, suf, by rw [← hqe]; exact heq, ?_⟩
              intro q2 hq2m
              simpa using hpre q2 hq2m
          · intro k n hkn
            have hmemn : n ∈ disclosed d :=
              List.mem_filterMap.2 ⟨(k, Salary.num n), hkn, rfl⟩
            have hsmem : n ∈ pySort (fun a b : ℤ => decide (a < b)) (disclosed d) :=
              (pySort_perm _ _).mem_iff.2 hmemn
            have hpw := pySort_pairwise int_lt_asym int_lt_negtrans (disclosed d)
            rcases pairwise_getLast? hpw hm n hsmem with rfl | hle
            · exact le_refl _
            · have := of_decide_eq_false hle
              omega

theorem C8_highest_paid_witness :
    ∃ d, normalize (pyDict [("Al Aa", "$500"), ("Bo Bb", "$500"), ("Cy Cc", "$100")]) =
        Except.ok d ∧
      (∃ pre suf, d = pre ++ ("Al Aa", Salary.num 500) :: suf ∧
        ∀ q ∈ pre, q.2 ≠ Salary.num 500) ∧
      ∀ k n, (k, Salary.num n) ∈ d → n ≤ 500 :=
  C8_highest_paid [("Al Aa", "$500"), ("Bo Bb", "$500"), ("Cy Cc", "$100")]
    "Al Aa" 500 366 (by rfl)

/-- C3 counterexample: two teams whose rosters give the same mean salary.
The first report keys a dict by the metric, so the duplicate key collapses
onto the later team: both printed lines carry the label TeamB, TeamA is
never printed, and TeamA's metric line is paired with TeamB's label —
refuting the no-mispairing part of the claim (and each line is just the two
print arguments side by side, with no fixed-width padding anywhere in the
code). -/
theorem C3_mispairing_on_tied_means :
    calculate_statistic [("TeamA", [("Al Aa", "$100")]), ("TeamB", [("Bo Bb", "$100")])] =
      Except.ok ([("TeamB", 100), ("TeamB", 100)],
        [("TeamA", ("Al Aa", 100)), ("TeamB", ("Bo Bb", 100))]) ∧
    ("TeamA", (100 : ℚ)) ∉ [("TeamB", (100 : ℚ)), ("TeamB", 100)] :=
  ⟨by rfl, by decide⟩

/-- C3 amended: when the computed team metrics are pairwise distinct (means
for the first report, (player, salary) pairs for the second), the first
report lists each team with the rounded value of its own mean salary in
ascending mean order, and the second report lists each team with its own
(highest-paid player, salary) pair in ascending salary order; each printed
line is the pair of the team label and its metric (plain two-argument
print, no fixed-width padding).  When metrics collide the metric-keyed
dicts collapse and labels are mispaired, as the counterexample shows. -/
theorem C3_reports_sorted_and_paired (rosters : List (String × List (String × String)))
    (stats : List ((String × ℤ) × ℚ))
    (hs : teamStats rosters = Except.ok stats)
    (hnd1 : (stats.map (fun s => s.2)).Nodup)
    (hnd2 : (stats.map (fun s => s.1)).Nodup) :
    ∃ (rep1 : List (String × ℚ)) (rep2 : List (String × (String × ℤ))),
      calculate_statistic rosters =
        Except.ok (rep1.map (fun p => (p.1, pyRound2 p.2)), rep2) ∧
      rep1.Perm ((rosters.map (fun r => r.1)).zip (stats.map (fun s => s.2))) ∧
      rep1.Pairwise (fun x y => x.2 ≤ y.2) ∧
      rep2.Perm ((rosters.map (fun r => r.1)).zip (stats.map (fun s => s.1))) ∧
      rep2.Pairwise (fun x y => x.2.2 ≤ y.2.2) := by
  have hlen : stats.length = rosters.length := mapM_ok_length hs
  obtain ⟨l1, h1, hp1, hs1⟩ :=
    report_build (stats.map (fun s => s.2)) (rosters.map (fun r => r.1))
      (fun a b => decide (a < b)) rat_lt_asym rat_lt_negtrans
      (by simp [hlen]) hnd1 (fun t a => (t, pyRound2 a))
  obtain ⟨l2, h2, hp2, hs2⟩ :=
    report_build (stats.map (fun s => s.1)) (rosters.map (fun r => r.1))
      (fun x y : String × ℤ => decide (x.2 < y.2)) pair_lt_asym pair_lt_negtrans
      (by simp [hlen]) hnd2 (fun (t : String) (hi : String × ℤ) => (t, hi))
  have hl2 : l2.map (fun p => (p.1, p.2)) = l2 := by simp
  refine ⟨l1, l2, ?_, hp1, ?_, hp2, ?_⟩
  · unfold calculate_statistic
    rw [hs]
    simp only [except_bind_ok]
    rw [h1]
    simp only [except_bind_ok]
    rw [h2]
    simp only [except_bind_ok]
    rw [hl2]
  · exact hs1.imp (fun hab => not_lt.1 (of_decide_eq_false hab))
  · exact hs2.imp (fun hab => not_lt.1 (of_decide_eq_false hab))

theorem C3_reports_sorted_and_paired_witness :
    ∃ (rep1 : List (String × ℚ)) (rep2 : List (String × (String × ℤ))),
      calculate_statistic [("TeamA", [("Al Aa", "$100")]), ("TeamB", [("Bo Bb", "$300")])] =
        Except.ok (rep1.map (fun p => (p.1, pyRound2 p.2)), rep2) ∧
      rep1.Perm
        (([("TeamA", [("Al Aa", "$100")]), ("TeamB", [("Bo Bb", "$300")])].map
            (fun r => r.1)).zip
          ([(("Al Aa", (100 : ℤ)), (100 : ℚ)), (("Bo Bb", 300), 300)].map
            (fun s => s.2))) ∧
      rep1.Pairwise (fun x y => x.2 ≤ y.2) ∧
      rep2.Perm
        (([("TeamA", [("Al Aa", "$100")]), ("TeamB", [("Bo Bb", "$300")])].map
            (fun r => r.1)).zip
          ([(("Al Aa", (100 : ℤ)), (100 : ℚ)), (("Bo Bb", 300), 300)].map
            (fun s => s.1))) ∧
      rep2.Pairwise (fun x y => x.2.2 ≤ y.2.2) :=
  C3_reports_sorted_and_paired
    [("TeamA", [("Al Aa", "$100")]), ("TeamB", [("Bo Bb", "$300")])]
    [(("Al Aa", (100 : ℤ)), (100 : ℚ)), (("Bo Bb", 300), 300)]
    (by rfl) (by decide) (by decide)

end NBA
